import Mathlib

/-!
Verification of the pyth-crosschain relay specification.

The repository snapshot holds deployment descriptors (docker-compose files,
env samples, a truffle migration script); the relay engine itself
(FeedCache, ReadinessGate, SubscriberHub, PushDecisionEngine) is described
by the specification but its code is not in the snapshot, so those
components are modelled from the spec.  The migration script and the
docker-compose pusher command are embedded directly from their sources.
-/

namespace PythRelay

/-- Modelled from the spec: `FeedId` is an opaque stable identifier for a
price feed (chain + emitter address pair). -/
structure FeedId where
  chainId : Nat
  emitterAddress : String
deriving DecidableEq, Repr

/-- Modelled from the spec: `PriceUpdate` record
{feedId, price, confidenceInterval, exponent, publishTime, sequenceNumber}. -/
structure PriceUpdate where
  feedId : FeedId
  price : Int
  confidenceInterval : Nat
  exponent : Int
  publishTime : Int
  sequenceNumber : Nat
deriving DecidableEq, Repr

/-- Modelled from the spec: `CacheEntry` = {latest: PriceUpdate, receivedAt}. -/
structure CacheEntry where
  latest : PriceUpdate
  receivedAt : Int
deriving DecidableEq, Repr

/-- Modelled from the spec: `FeedCache` holds the latest-known state per
feed id, keyed by `FeedId`. -/
structure FeedCache where
  entries : List (FeedId × CacheEntry)
deriving DecidableEq, Repr

/-- Modelled from the spec: `get(feedId) → CacheEntry | absent`. -/
def FeedCache.get (c : FeedCache) (fid : FeedId) : Option CacheEntry :=
  (c.entries.find? (fun p => decide (p.1 = fid))).map (fun p => p.2)

/-- Modelled from the spec: `upsert(update) → accepted`.  Rejected (no-op,
`accepted=false`) if an entry exists for the feed and
`update.sequenceNumber <= stored.sequenceNumber`; otherwise the entry is
replaced (or created) and `accepted=true`. -/
def FeedCache.upsert (c : FeedCache) (u : PriceUpdate) (now : Int) : FeedCache × Bool :=
  match c.get u.feedId with
  | none => (⟨(u.feedId, ⟨u, now⟩) :: c.entries⟩, true)
  | some e =>
    if u.sequenceNumber ≤ e.latest.sequenceNumber then
      (c, false)
    else
      (⟨c.entries.map (fun p => if p.1 = u.feedId then (p.1, ⟨u, now⟩) else p)⟩, true)

/-- Modelled from the spec: a sequence of `upsert` calls applied in order. -/
def FeedCache.upsertAll (c : FeedCache) (us : List (PriceUpdate × Int)) : FeedCache :=
  us.foldl (fun c p => (c.upsert p.1 p.2).1) c

lemma find?_map_of_pred {α : Type} (f : α → α) (q : α → Bool)
    (hq : ∀ p, q (f p) = q p) (l : List α) :
    (l.map f).find? q = (l.find? q).map f := by
  induction l with
  | nil => simp
  | cons hd tl ih =>
    cases h : q hd with
    | true => simp [List.find?_cons, hq, h]
    | false => simp [List.find?_cons, hq, h, ih]

lemma find?_map_replace (l : List (FeedId × CacheEntry)) (fid : FeedId) (e' : CacheEntry) (g : FeedId) :
    (l.map (fun p => if p.1 = fid then (p.1, e') else p)).find? (fun p => decide (p.1 = g)) =
      (l.find? (fun p => decide (p.1 = g))).map (fun p => if p.1 = fid then (p.1, e') else p) := by
  refine find?_map_of_pred _ _ (fun p => ?_) l
  by_cases hk : p.1 = fid <;> simp [hk]

/-- After an accepted upsert, `get` on the update's own feed returns the new entry. -/
lemma FeedCache.get_upsert_self (c : FeedCache) (u : PriceUpdate) (now : Int)
    (hacc : (c.upsert u now).2 = true) :
    ((c.upsert u now).1).get u.feedId = some ⟨u, now⟩ := by
  unfold FeedCache.upsert at *
  cases hg : c.get u.feedId with
  | none => simp [hg, FeedCache.get, List.find?]
  | some e =>
    simp only [hg] at hacc ⊢
    by_cases hseq : u.sequenceNumber ≤ e.latest.sequenceNumber
    · simp [hseq] at hacc
    · simp only [hseq, if_false]
      unfold FeedCache.get at hg ⊢
      simp only [find?_map_replace]
      cases hf : c.entries.find? (fun p => decide (p.1 = u.feedId)) with
      | none => simp [hf] at hg
      | some p =>
        have hp : p.1 = u.feedId := by
          have := List.find?_some hf
          simpa using this
        simp [hf, hp]

/-- An upsert leaves every other feed's entry unchanged. -/
lemma FeedCache.get_upsert_ne (c : FeedCache) (u : PriceUpdate) (now : Int) (g : FeedId)
    (hne : u.feedId ≠ g) :
    ((c.upsert u now).1).get g = c.get g := by
  unfold FeedCache.upsert
  cases hg : c.get u.feedId with
  | none =>
    simp only
    unfold FeedCache.get
    simp [List.find?_cons, hne]
  | some e =>
    by_cases hseq : u.sequenceNumber ≤ e.latest.sequenceNumber
    · simp [hseq]
    · simp only [hseq, if_false]
      unfold FeedCache.get
      simp only [find?_map_replace]
      cases hf : c.entries.find? (fun p => decide (p.1 = g)) with
      | none => simp
      | some p =>
        have hp : p.1 = g := by
          have := List.find?_some hf
          simpa using this
        have : ¬ (p.1 = u.feedId) := by
          rw [hp]; exact fun h => hne h.symm
        simp [this]

/-- One upsert step can only keep or raise the stored sequence number of any feed. -/
lemma FeedCache.seq_mono_step (c : FeedCache) (u : PriceUpdate) (now : Int) (g : FeedId)
    (e : CacheEntry) (h : c.get g = some e) :
    ∃ e', ((c.upsert u now).1).get g = some e' ∧
      e.latest.sequenceNumber ≤ e'.latest.sequenceNumber := by
  by_cases hfid : u.feedId = g
  · subst hfid
    unfold FeedCache.upsert
    rw [h]
    by_cases hseq : u.sequenceNumber ≤ e.latest.sequenceNumber
    · exact ⟨e, by simp [hseq, h], le_refl _⟩
    · refine ⟨⟨u, now⟩, ?_, le_of_lt (Nat.lt_of_not_le hseq)⟩
      have hacc : (c.upsert u now).2 = true := by
        unfold FeedCache.upsert; simp [h, hseq]
      have := FeedCache.get_upsert_self c u now hacc
      unfold FeedCache.upsert at this
      simpa [h, hseq] using this
  · exact ⟨e, by rw [FeedCache.get_upsert_ne c u now g hfid, h], le_refl _⟩

/-- Over any run of upserts, the stored sequence number of any feed is non-decreasing. -/
lemma FeedCache.seq_mono_run (us : List (PriceUpdate × Int)) (c : FeedCache) (g : FeedId)
    (e : CacheEntry) (h : c.get g = some e) :
    ∃ e', (c.upsertAll us).get g = some e' ∧
      e.latest.sequenceNumber ≤ e'.latest.sequenceNumber := by
  induction us generalizing c e with
  | nil => exact ⟨e, h, le_refl _⟩
  | cons p rest ih =>
    obtain ⟨e1, he1, hle1⟩ := FeedCache.seq_mono_step c p.1 p.2 g e h
    obtain ⟨e2, he2, hle2⟩ := ih (c.upsert p.1 p.2).1 e1 he1
    exact ⟨e2, he2, le_trans hle1 hle2⟩

/-- Claim C1: for every sequence of upserts, the stored sequence number per feed is
non-decreasing; an upsert with `sequenceNumber ≤` the stored one returns
`accepted=false` and leaves the cache unchanged; any other upsert on an existing
entry replaces it and returns `accepted=true`. -/
theorem C1_upsert_sequence_monotone (c : FeedCache) (u : PriceUpdate) (now : Int)
    (e : CacheEntry) (h : c.get u.feedId = some e) :
    (u.sequenceNumber ≤ e.latest.sequenceNumber →
      c.upsert u now = (c, false)) ∧
    (e.latest.sequenceNumber < u.sequenceNumber →
      (c.upsert u now).2 = true ∧ ((c.upsert u now).1).get u.feedId = some ⟨u, now⟩) ∧
    (∀ us : List (PriceUpdate × Int), ∀ g : FeedId, ∀ e0 : CacheEntry,
      c.get g = some e0 →
      ∃ e', (c.upsertAll us).get g = some e' ∧
        e0.latest.sequenceNumber ≤ e'.latest.sequenceNumber) := by
  refine ⟨?_, ?_, ?_⟩
  · intro hseq
    unfold FeedCache.upsert
    simp [h, hseq]
  · intro hlt
    have hacc : (c.upsert u now).2 = true := by
      unfold FeedCache.upsert; simp [h, Nat.not_le.mpr hlt]
    exact ⟨hacc, FeedCache.get_upsert_self c u now hacc⟩
  · intro us g e0 h0
    exact FeedCache.seq_mono_run us c g e0 h0

/-- Witness for C1 at a concrete cache, update and run. -/
theorem C1_upsert_sequence_monotone_witness :
    let fid : FeedId := ⟨1, "aa"⟩
    let u0 : PriceUpdate := ⟨fid, 100, 1, -8, 10, 5⟩
    let c : FeedCache := ⟨[(fid, ⟨u0, 0⟩)]⟩
    let u1 : PriceUpdate := ⟨fid, 101, 1, -8, 11, 7⟩
    (u1.sequenceNumber ≤ (⟨u0, 0⟩ : CacheEntry).latest.sequenceNumber →
      c.upsert u1 3 = (c, false)) ∧
    ((⟨u0, 0⟩ : CacheEntry).latest.sequenceNumber < u1.sequenceNumber →
      (c.upsert u1 3).2 = true ∧ ((c.upsert u1 3).1).get fid = some ⟨u1, 3⟩) ∧
    (∀ us : List (PriceUpdate × Int), ∀ g : FeedId, ∀ e0 : CacheEntry,
      c.get g = some e0 →
      ∃ e', (c.upsertAll us).get g = some e' ∧
        e0.latest.sequenceNumber ≤ e'.latest.sequenceNumber) :=
  C1_upsert_sequence_monotone _ _ 3 _ (by decide)

/-- Modelled from the spec: `sweepExpired(now)` evicts every entry with
`now − receivedAt > CACHE_TTL_SECONDS` and returns the list of evicted feed
ids.  The TTL is configuration (`CACHE_TTL_SECONDS`), passed as a parameter. -/
def FeedCache.sweepExpired (c : FeedCache) (now ttl : Int) : FeedCache × List FeedId :=
  (⟨c.entries.filter (fun p => decide (now - p.2.receivedAt ≤ ttl))⟩,
   (c.entries.filter (fun p => decide (ttl < now - p.2.receivedAt))).map (fun p => p.1))

lemma find?_filter_none {α : Type} (l : List α) (q b : α → Bool)
    (h : l.find? q = none) : (l.filter b).find? q = none := by
  rw [List.find?_eq_none] at h ⊢
  intro a ha
  exact h a (List.mem_filter.mp ha).1

lemma find?_filter_of_nodup (l : List (FeedId × CacheEntry)) (fid : FeedId)
    (hnd : (l.map Prod.fst).Nodup) (p : FeedId × CacheEntry) (b : FeedId × CacheEntry → Bool)
    (h : l.find? (fun x => decide (x.1 = fid)) = some p) :
    (l.filter b).find? (fun x => decide (x.1 = fid)) = if b p then some p else none := by
  induction l with
  | nil => simp at h
  | cons hd tl ih =>
    rw [List.map_cons, List.nodup_cons] at hnd
    by_cases hk : hd.1 = fid
    · have hp : p = hd := by
        rw [List.find?_cons_of_pos _ (by simpa using hk)] at h
        exact (Option.some_inj.mp h).symm
      subst hp
      have hnone : tl.find? (fun x => decide (x.1 = fid)) = none := by
        rw [List.find?_eq_none]
        intro a ha hqa
        have : a.1 ∈ tl.map Prod.fst := List.mem_map_of_mem Prod.fst ha
        rw [show a.1 = fid by simpa using hqa, ← hk] at this
        exact hnd.1 this
      cases hb : b p with
      | true =>
        rw [List.filter_cons, hb]
        simp only [if_true]
        rw [List.find?_cons_of_pos _ (by simpa using hk)]
      | false =>
        rw [List.filter_cons, hb]
        simp only [Bool.false_eq_true, if_false]
        exact find?_filter_none tl _ b hnone
    · rw [List.find?_cons_of_neg _ (by simpa using hk)] at h
      rw [List.filter_cons]
      cases hb : b hd with
      | true =>
        simp only [if_true]
        rw [List.find?_cons_of_neg _ (by simpa using hk)]
        exact ih hnd.2 h
      | false =>
        simp only [Bool.false_eq_true, if_false]
        exact ih hnd.2 h

lemma key_unique (l : List (FeedId × CacheEntry)) (hnd : (l.map Prod.fst).Nodup)
    (p q : FeedId × CacheEntry) (hp : p ∈ l) (hq : q ∈ l) (h : p.1 = q.1) : p = q := by
  induction l with
  | nil => simp at hp
  | cons hd tl ih =>
    rw [List.map_cons, List.nodup_cons] at hnd
    rcases List.mem_cons.mp hp with rfl | hp'
    · rcases List.mem_cons.mp hq with rfl | hq'
      · rfl
      · have : q.1 ∈ tl.map Prod.fst := List.mem_map_of_mem Prod.fst hq'
        rw [← h] at this
        exact absurd this hnd.1
    · rcases List.mem_cons.mp hq with rfl | hq'
      · have : p.1 ∈ tl.map Prod.fst := List.mem_map_of_mem Prod.fst hp'
        rw [h] at this
        exact absurd this hnd.1
      · exact ih hnd.2 hp' hq'

/-- Claim C5: acceptance of a replacement is decided solely by strict sequence-number
increase, and — because the attestation source tags genuine updates with publish
times that are monotone in the per-feed sequence number — every accepted upsert on
an existing entry installs a publish time that is at least the stored one. -/
theorem C5_publishTime_monotone (c : FeedCache) (u : PriceUpdate) (now : Int)
    (e : CacheEntry) (h : c.get u.feedId = some e)
    (hcoh : e.latest.sequenceNumber < u.sequenceNumber →
      e.latest.publishTime ≤ u.publishTime) :
    ((c.upsert u now).2 = true ↔ e.latest.sequenceNumber < u.sequenceNumber) ∧
    ((c.upsert u now).2 = true →
      ((c.upsert u now).1).get u.feedId = some ⟨u, now⟩ ∧
      e.latest.publishTime ≤ u.publishTime) := by
  have hiff : (c.upsert u now).2 = true ↔ e.latest.sequenceNumber < u.sequenceNumber := by
    unfold FeedCache.upsert
    rw [h]
    by_cases hseq : u.sequenceNumber ≤ e.latest.sequenceNumber
    · simp [hseq, Nat.not_lt.mpr hseq]
    · simp [hseq, Nat.lt_of_not_le hseq]
  refine ⟨hiff, fun hacc => ?_⟩
  exact ⟨FeedCache.get_upsert_self c u now hacc, hcoh (hiff.mp hacc)⟩

/-- Witness for C5 at a concrete cache and update. -/
theorem C5_publishTime_monotone_witness :
    let fid : FeedId := ⟨1, "aa"⟩
    let u0 : PriceUpdate := ⟨fid, 100, 1, -8, 10, 5⟩
    let c : FeedCache := ⟨[(fid, ⟨u0, 0⟩)]⟩
    let u1 : PriceUpdate := ⟨fid, 101, 1, -8, 12, 6⟩
    ((c.upsert u1 3).2 = true ↔ (⟨u0, 0⟩ : CacheEntry).latest.sequenceNumber < u1.sequenceNumber) ∧
    ((c.upsert u1 3).2 = true →
      ((c.upsert u1 3).1).get fid = some ⟨u1, 3⟩ ∧
      (⟨u0, 0⟩ : CacheEntry).latest.publishTime ≤ u1.publishTime) :=
  C5_publishTime_monotone _ _ 3 _ (by decide) (fun _ => by decide)

/-- Claim C6: an entry is evicted by `sweepExpired now ttl` exactly when
`now − receivedAt > ttl`: an expired entry is absent from `get` afterwards and
its feed id is in the returned evicted list; a fresh entry survives with its
feed id not in the evicted list. -/
theorem C6_sweep_evicts_expired (c : FeedCache) (now ttl : Int) (fid : FeedId)
    (e : CacheEntry) (hnd : (c.entries.map Prod.fst).Nodup) (h : c.get fid = some e) :
    (ttl < now - e.receivedAt →
      (c.sweepExpired now ttl).1.get fid = none ∧ fid ∈ (c.sweepExpired now ttl).2) ∧
    (now - e.receivedAt ≤ ttl →
      (c.sweepExpired now ttl).1.get fid = some e ∧ fid ∉ (c.sweepExpired now ttl).2) := by
  unfold FeedCache.get at h
  cases hf : c.entries.find? (fun p => decide (p.1 = fid)) with
  | none => rw [hf] at h; simp at h
  | some p =>
    rw [hf] at h
    have hpe : p.2 = e := by simpa using h
    have hpfid : p.1 = fid := by simpa using List.find?_some hf
    have hpmem : p ∈ c.entries := List.mem_of_find?_eq_some hf
    constructor
    · intro hexp
      have hkeep : (decide (now - p.2.receivedAt ≤ ttl)) = false := by
        simp [hpe, not_le.mpr hexp]
      constructor
      · unfold FeedCache.sweepExpired FeedCache.get
        simp only
        rw [find?_filter_of_nodup c.entries fid hnd p _ hf, hkeep]
        simp
      · unfold FeedCache.sweepExpired
        simp only
        refine List.mem_map.mpr ⟨p, List.mem_filter.mpr ⟨hpmem, ?_⟩, hpfid⟩
        simp [hpe, hexp]
    · intro hfresh
      have hkeep : (decide (now - p.2.receivedAt ≤ ttl)) = true := by
        simp [hpe, hfresh]
      constructor
      · unfold FeedCache.sweepExpired FeedCache.get
        simp only
        rw [find?_filter_of_nodup c.entries fid hnd p _ hf, hkeep]
        simp [hpe]
      · unfold FeedCache.sweepExpired
        simp only
        intro hmem
        obtain ⟨q, hqmem, hqfid⟩ := List.mem_map.mp hmem
        have hqexp : (decide (ttl < now - q.2.receivedAt)) = true :=
          (List.mem_filter.mp hqmem).2
        have hq : q = p :=
          key_unique c.entries hnd q p (List.mem_filter.mp hqmem).1 hpmem
            (hqfid.trans hpfid.symm)
        rw [hq, hpe] at hqexp
        simp at hqexp
        exact absurd hfresh (not_le.mpr hqexp)

/-- Witness for C6 at a concrete cache: one expired and one fresh entry. -/
theorem C6_sweep_evicts_expired_witness :
    let fid : FeedId := ⟨1, "aa"⟩
    let u0 : PriceUpdate := ⟨fid, 100, 1, -8, 10, 5⟩
    let c : FeedCache := ⟨[(fid, ⟨u0, 0⟩)]⟩
    ((300 : Int) < 1000 - (⟨u0, 0⟩ : CacheEntry).receivedAt →
      (c.sweepExpired 1000 300).1.get fid = none ∧ fid ∈ (c.sweepExpired 1000 300).2) ∧
    ((1000 : Int) - (⟨u0, 0⟩ : CacheEntry).receivedAt ≤ 300 →
      (c.sweepExpired 1000 300).1.get fid = some ⟨u0, 0⟩ ∧
      fid ∉ (c.sweepExpired 1000 300).2) :=
  C6_sweep_evicts_expired _ 1000 300 _ _ (by decide) (by decide)

/-- Modelled from the spec: the `ReadinessGate` state machine
`NotReady → Ready` (terminal, one-way). -/
inductive ReadinessState where
  | notReady
  | ready
deriving DecidableEq, Repr

/-- Modelled from the spec: one evaluation of the readiness gate.  Inputs are
elapsed wall-clock seconds since process start and the current distinct-feed
count; the transition fires when `elapsed ≥ READINESS_SPY_SYNC_TIME_SECONDS`
and `distinctFeedCount ≥ READINESS_NUM_LOADED_SYMBOLS` both hold (the two
configuration values are parameters). -/
def readinessStep (syncTime numSymbols : Nat) (s : ReadinessState)
    (elapsed distinctFeedCount : Nat) : ReadinessState :=
  match s with
  | .ready => .ready
  | .notReady =>
    if syncTime ≤ elapsed ∧ numSymbols ≤ distinctFeedCount then .ready else .notReady

/-- Modelled from the spec: repeated evaluations of the readiness gate on a
sequence of (elapsed, distinctFeedCount) inputs. -/
def readinessRun (syncTime numSymbols : Nat) (s : ReadinessState)
    (inputs : List (Nat × Nat)) : ReadinessState :=
  inputs.foldl (fun s p => readinessStep syncTime numSymbols s p.1 p.2) s

lemma readinessRun_ready (syncTime numSymbols : Nat) (inputs : List (Nat × Nat)) :
    readinessRun syncTime numSymbols .ready inputs = .ready := by
  induction inputs with
  | nil => rfl
  | cons p rest ih => simpa [readinessRun, readinessStep] using ih

/-- Claim C4: from NotReady the gate becomes Ready exactly when both the elapsed
time and the symbol-count thresholds are met; at `elapsed = syncTime − 1` it stays
NotReady even if the symbol count is met; and Ready is terminal under any further
input sequence. -/
theorem C4_readiness_gate (syncTime numSymbols elapsed count : Nat)
    (hpos : 1 ≤ syncTime) :
    (readinessStep syncTime numSymbols .notReady elapsed count = .ready ↔
      (syncTime ≤ elapsed ∧ numSymbols ≤ count)) ∧
    (∀ c : Nat, readinessStep syncTime numSymbols .notReady (syncTime - 1) c = .notReady) ∧
    (∀ inputs : List (Nat × Nat),
      readinessRun syncTime numSymbols .ready inputs = .ready) := by
  refine ⟨?_, ?_, readinessRun_ready syncTime numSymbols⟩
  · unfold readinessStep
    by_cases hc : syncTime ≤ elapsed ∧ numSymbols ≤ count
    · simp [hc]
    · simp [hc]
  · intro c
    unfold readinessStep
    have : ¬ (syncTime ≤ syncTime - 1 ∧ numSymbols ≤ c) := by
      rintro ⟨h1, _⟩
      omega
    simp [this]

/-- Witness for C4 at the sample configuration (60 seconds, 5 symbols). -/
theorem C4_readiness_gate_witness :
    (readinessStep 60 5 .notReady 60 5 = .ready ↔ (60 ≤ 60 ∧ 5 ≤ 5)) ∧
    (∀ c : Nat, readinessStep 60 5 .notReady (60 - 1) c = .notReady) ∧
    (∀ inputs : List (Nat × Nat), readinessRun 60 5 .ready inputs = .ready) :=
  C4_readiness_gate 60 5 60 5 (by decide)

/-- Modelled from the spec: per-feed push thresholds from the price config. -/
structure PushThresholds where
  maxStaleness : Int
  minDeviationBps : ℚ
deriving DecidableEq, Repr

/-- Modelled from the spec: `PushTarget` = {chainId, feedId, lastOnChainPrice,
lastOnChainTime, thresholds}. -/
structure PushTarget where
  chainId : Nat
  feedId : FeedId
  lastOnChainPrice : Int
  lastOnChainTime : Int
  thresholds : PushThresholds
deriving DecidableEq, Repr

/-- Modelled from the spec: `staleness = latest.publishTime − target.lastOnChainTime`. -/
def staleness (latest : PriceUpdate) (t : PushTarget) : Int :=
  latest.publishTime - t.lastOnChainTime

/-- Modelled from the spec:
`deviationBps = |latest.price − target.lastOnChainPrice| / |target.lastOnChainPrice| × 10000`. -/
def deviationBps (latest : PriceUpdate) (t : PushTarget) : ℚ :=
  |((latest.price - t.lastOnChainPrice : Int) : ℚ)| / |((t.lastOnChainPrice : Int) : ℚ)| * 10000

/-- Modelled from the spec: trigger a push iff `staleness > maxStaleness` or
`deviationBps ≥ minDeviationBps`; the deviation check is skipped when
`lastOnChainPrice == 0` (never pushed) and the push always proceeds. -/
def shouldPush (latest : PriceUpdate) (t : PushTarget) : Bool :=
  if t.lastOnChainPrice = 0 then
    true
  else
    decide (t.thresholds.maxStaleness < staleness latest t) ||
    decide (t.thresholds.minDeviationBps ≤ deviationBps latest t)

/-- Claim C2: a push is triggered iff the staleness bound is exceeded or the
deviation threshold is reached, and a target that was never pushed
(`lastOnChainPrice = 0`) always triggers. -/
theorem C2_push_trigger (latest : PriceUpdate) (t : PushTarget) :
    (t.lastOnChainPrice ≠ 0 →
      (shouldPush latest t = true ↔
        (t.thresholds.maxStaleness < staleness latest t ∨
         t.thresholds.minDeviationBps ≤ deviationBps latest t))) ∧
    (t.lastOnChainPrice = 0 → shouldPush latest t = true) := by
  constructor
  · intro hz
    unfold shouldPush
    simp [hz]
  · intro hz
    unfold shouldPush
    simp [hz]

/-- Witness for C2: the spec scenario (maxStaleness 60, minDeviation 50 bps,
lastOnChainPrice 100, update at +10 s with price 101, a 100 bps move) triggers,
and a never-pushed target triggers. -/
theorem C2_push_trigger_witness :
    let fid : FeedId := ⟨1, "aa"⟩
    let t : PushTarget := ⟨1, fid, 100, 0, ⟨60, 50⟩⟩
    let latest : PriceUpdate := ⟨fid, 101, 1, -8, 10, 5⟩
    let t0 : PushTarget := ⟨1, fid, 0, 0, ⟨60, 50⟩⟩
    shouldPush latest t = true ∧ shouldPush latest t0 = true := by
  refine ⟨?_, (C2_push_trigger _ _).2 rfl⟩
  refine ((C2_push_trigger _ _).1 (by decide)).mpr (Or.inr ?_)
  show (50 : ℚ) ≤ |((101 - 100 : Int) : ℚ)| / |((100 : Int) : ℚ)| * 10000
  norm_num

/-- Modelled from the spec: the outcome of one ChainAdapter `submit` attempt,
which fails with `SubmissionError`. -/
inductive SubmitResult where
  | success
  | submissionError
deriving DecidableEq, Repr

/-- Modelled from the spec: on a successful submission the target's
`lastOnChainPrice`/`lastOnChainTime` are updated from the submitted values;
on failure target state is not updated. -/
def applySubmission (t : PushTarget) (submitted : PriceUpdate) (r : SubmitResult) :
    PushTarget :=
  match r with
  | .success =>
    { t with lastOnChainPrice := submitted.price, lastOnChainTime := submitted.publishTime }
  | .submissionError => t

/-- Modelled from the spec: retry up to an attempt cap, stopping at the first
success; the outcomes of the successive attempts are given as a list. -/
def submitWithRetry (t : PushTarget) (submitted : PriceUpdate) :
    List SubmitResult → PushTarget
  | [] => t
  | r :: rest =>
    match r with
    | .success => applySubmission t submitted .success
    | .submissionError => submitWithRetry t submitted rest

/-- Claim C3: any run of failed attempts within the retry cap leaves the target
unchanged — in particular its push decision for the cached update is unchanged,
so the feed is still eligible to trigger on the next tick — while a successful
submission updates `lastOnChainPrice` and `lastOnChainTime` to the submitted
values. -/
theorem C3_submission_failure_preserves_state (t : PushTarget)
    (submitted latest : PriceUpdate) (attemptCap : Nat)
    (attempts : List SubmitResult)
    (hfail : ∀ r ∈ attempts, r = SubmitResult.submissionError)
    (hcap : attempts.length ≤ attemptCap) :
    (submitWithRetry t submitted attempts = t ∧
     shouldPush latest (submitWithRetry t submitted attempts) = shouldPush latest t) ∧
    ((applySubmission t submitted .success).lastOnChainPrice = submitted.price ∧
     (applySubmission t submitted .success).lastOnChainTime = submitted.publishTime) := by
  have hid : submitWithRetry t submitted attempts = t := by
    induction attempts with
    | nil => rfl
    | cons r rest ih =>
      have hr : r = SubmitResult.submissionError := hfail r (List.mem_cons_self r rest)
      subst hr
      exact ih (fun x hx => hfail x (List.mem_cons_of_mem _ hx))
        (le_trans (Nat.le_succ _) hcap)
  exact ⟨⟨hid, by rw [hid]⟩, rfl, rfl⟩

/-- Witness for C3: three failed attempts under a cap of five leave a concrete
target unchanged. -/
theorem C3_submission_failure_preserves_state_witness :
    let fid : FeedId := ⟨1, "aa"⟩
    let t : PushTarget := ⟨1, fid, 100, 0, ⟨60, 50⟩⟩
    let u : PriceUpdate := ⟨fid, 101, 1, -8, 10, 5⟩
    let attempts : List SubmitResult :=
      [.submissionError, .submissionError, .submissionError]
    (submitWithRetry t u attempts = t ∧
     shouldPush u (submitWithRetry t u attempts) = shouldPush u t) ∧
    ((applySubmission t u .success).lastOnChainPrice = u.price ∧
     (applySubmission t u .success).lastOnChainTime = u.publishTime) :=
  C3_submission_failure_preserves_state _ _ _ 5 _
    (by intro r hr; rcases List.mem_cons.mp hr with rfl | hr <;>
          first
          | rfl
          | (rcases List.mem_cons.mp hr with rfl | hr <;>
              first
              | rfl
              | simpa using hr))
    (by decide)

/-- Modelled from the spec: `Subscriber` = {id, set of subscribed FeedIds,
outbound channel}; the outbound channel is a bounded buffer. -/
structure Subscriber where
  id : Nat
  feeds : List FeedId
  buffer : List PriceUpdate
deriving DecidableEq, Repr

/-- Modelled from the spec: enqueue on a bounded per-subscriber outbound
buffer; overflow drops the subscriber's oldest buffered update (the head),
never blocking the producer. -/
def offerBounded (capacity : Nat) (buffer : List PriceUpdate) (u : PriceUpdate) :
    List PriceUpdate :=
  if buffer.length < capacity then buffer ++ [u] else buffer.tail ++ [u]

/-- Modelled from the spec: every accepted upsert is broadcast to the
subscribers registered for that feed id. -/
def broadcast (capacity : Nat) (subs : List Subscriber) (u : PriceUpdate) :
    List Subscriber :=
  subs.map (fun s =>
    if u.feedId ∈ s.feeds then { s with buffer := offerBounded capacity s.buffer u } else s)

/-- Modelled from the spec: the ingestion path — upsert into the cache, then
fan out to subscribers when accepted.  The upsert result is computed before
and independently of the fan-out. -/
def ingest (capacity : Nat) (c : FeedCache) (subs : List Subscriber)
    (u : PriceUpdate) (now : Int) : (FeedCache × Bool) × List Subscriber :=
  let r := c.upsert u now
  (r, if r.2 then broadcast capacity subs u else subs)

/-- Claim C7: a full outbound buffer drops its own oldest update (the head) and
keeps its size, and the cache ingestion result is a function of the cache and
the update alone — identical for any subscriber population, so no subscriber
can stall an upsert. -/
theorem C7_fanout_drop_oldest (capacity : Nat) (u x : PriceUpdate)
    (xs : List PriceUpdate) (hfull : (x :: xs).length = capacity)
    (c : FeedCache) (subs subs' : List Subscriber) (now : Int) :
    (offerBounded capacity (x :: xs) u = xs ++ [u] ∧
     (offerBounded capacity (x :: xs) u).length = capacity) ∧
    ((ingest capacity c subs u now).1 = c.upsert u now ∧
     (ingest capacity c subs u now).1 = (ingest capacity c subs' u now).1) := by
  have hnlt : ¬ (x :: xs).length < capacity := by rw [hfull]; exact lt_irrefl _
  have hoff : offerBounded capacity (x :: xs) u = xs ++ [u] := by
    unfold offerBounded
    rw [if_neg hnlt]
    rfl
  refine ⟨⟨hoff, ?_⟩, rfl, rfl⟩
  rw [hoff]
  simp only [List.length_append, List.length_cons, List.length_nil] at hfull ⊢
  omega

/-- Witness for C7 at a concrete full buffer of capacity two. -/
theorem C7_fanout_drop_oldest_witness :
    let fid : FeedId := ⟨1, "aa"⟩
    let a : PriceUpdate := ⟨fid, 1, 1, -8, 1, 1⟩
    let b : PriceUpdate := ⟨fid, 2, 1, -8, 2, 2⟩
    let u : PriceUpdate := ⟨fid, 3, 1, -8, 3, 3⟩
    let c : FeedCache := ⟨[]⟩
    (offerBounded 2 [a, b] u = [b] ++ [u] ∧
     (offerBounded 2 [a, b] u).length = 2) ∧
    ((ingest 2 c [] u 0).1 = c.upsert u 0 ∧
     (ingest 2 c [] u 0).1 = (ingest 2 c [⟨7, [fid], []⟩] u 0).1) :=
  C7_fanout_drop_oldest 2 _ _ _ (by decide) _ _ _ 0

/-- Embedded from src/price_pusher/docker-compose.testnet.sample.yaml: the
`command` list of the price-pusher service. -/
def pricePusherCommand : List String :=
  ["--", "evm",
   "--endpoint", "https://endpoints.omniatech.io/v1/fantom/testnet/public",
   "--mnemonic-file", "/mnemonic",
   "--pyth-contract-address", "0xff1a0f4744e8582DF1aE09D5611b887B6a12925C",
   "--price-service-endpoint", "http://price-service:4200",
   "--price-config-file", "/price_config"]

/-- Modelled from the spec: the fatal startup failures of the pusher. -/
inductive StartupFailure where
  | unreachablePriceService
  | unreadableConfigFile
  | unreadableCredentialFile
deriving DecidableEq, Repr

/-- Modelled from the spec: the pusher's process exit code — zero on clean
startup, non-zero (one) on any fatal startup failure. -/
def startupExitCode : Option StartupFailure → Nat
  | none => 0
  | some _ => 1

/-- Counterexample for C8: the pusher command does not use the flag names
`--credential-file` and `--contract-address` claimed by the spec pattern. -/
theorem C8_counterexample :
    ¬ ∃ name e c a p f : String,
      pricePusherCommand =
        ["--", name, "--endpoint", e, "--credential-file", c,
         "--contract-address", a, "--price-service-endpoint", p,
         "--price-config-file", f] := by
  rintro ⟨n, e, c, a, p, f, h⟩
  have h4 := congrArg (fun l => l[4]?) h
  simp only [pricePusherCommand] at h4
  simp at h4

/-- Claim C8 (amended): the pusher invocation follows the subcommand pattern
with flags `--endpoint`, `--mnemonic-file`, `--pyth-contract-address`,
`--price-service-endpoint` and `--price-config-file` (after the docker
argument separator), and any fatal startup failure exits non-zero. -/
theorem C8_cli_pattern :
    (∃ e c a p f : String,
      pricePusherCommand =
        ["--", "evm", "--endpoint", e, "--mnemonic-file", c,
         "--pyth-contract-address", a, "--price-service-endpoint", p,
         "--price-config-file", f]) ∧
    (∀ r : StartupFailure, startupExitCode (some r) = 1) :=
  ⟨⟨_, _, _, _, _, rfl⟩, fun _ => rfl⟩

/-- Embedded from
src/target_chains/ethereum/contracts/migrations/prod-receiver/3_deploy_pyth.js:
`Number(process.env.GOVERNANCE_INITIAL_SEQUENCE ?? "0")`.  The JS `Number`
builtin is external, so it is a parameter; `?? "0"` is `Option.getD "0"`. -/
def governanceInitialSequence (num : String → Int) (envVar : Option String) : Int :=
  num (envVar.getD "0")

/-- Claim C9: with the environment variable unset the value passed to
`deployProxy` is Number("0") = 0; when set it is Number of the set string. -/
theorem C9_governance_initial_sequence (num : String → Int) (hnum : num "0" = 0) :
    governanceInitialSequence num none = 0 ∧
    (∀ s : String, governanceInitialSequence num (some s) = num s) :=
  ⟨hnum, fun _ => rfl⟩

/-- Witness for C9 with a concrete reading of the Number builtin on the only
string the default path ever passes. -/
theorem C9_governance_initial_sequence_witness :
    governanceInitialSequence (fun _ => (0 : Int)) none = 0 ∧
    (∀ s : String, governanceInitialSequence (fun _ => (0 : Int)) (some s) = 0) :=
  C9_governance_initial_sequence (fun _ => (0 : Int)) rfl

/-- Embedded from
src/target_chains/ethereum/contracts/migrations/prod-receiver/3_deploy_pyth.js:
the deployed proxy instance is appended to the truffle deploy registry unless
`tdr.isDryRunNetworkName(network)` holds; the predicate is external library
code, so it is a parameter. -/
def migrationRegistryAfter (isDryRunNetworkName : String → Bool) (network : String)
    (registry : List String) (proxyInstance : String) : List String :=
  if !(isDryRunNetworkName network) then registry ++ [proxyInstance] else registry

/-- Claim C10: the migration appends the proxy instance to the registry iff the
network name is not a dry-run network name, and on a dry-run network the
registry is left unchanged. -/
theorem C10_registry_append_iff (d : String → Bool) (n : String)
    (r : List String) (i : String) :
    (migrationRegistryAfter d n r i = r ++ [i] ↔ d n = false) ∧
    (migrationRegistryAfter d n r i = r ↔ d n = true) := by
  have hne : r ++ [i] ≠ r := by
    intro he
    have := congrArg List.length he
    simp at this
  have hne' : r ≠ r ++ [i] := fun he => hne he.symm
  cases h : d n with
  | false =>
    constructor
    · simp [migrationRegistryAfter, h]
    · simp [migrationRegistryAfter, h, hne]
  | true =>
    constructor
    · simp [migrationRegistryAfter, h, hne']
    · simp [migrationRegistryAfter, h]

end PythRelay
